import Mathlib

/-!
Verification of the tailscale-bind-ddns repository (Go) against its
natural-language specification.

Shallow embedding conventions:
* Go strings are modelled as `List Char` (abbreviated `Str`); the helper
  functions below (`leadsWith`, `containsSub`, `endsWith`, `trimSuffix`,
  `splitDots`, `joinDots`) are the list-of-characters models of
  `strings.HasPrefix`-style matching, `strings.Contains`,
  `strings.HasSuffix`, `strings.TrimSuffix`, `strings.Split(s, ".")`
  and `strings.Join(l, ".")` respectively.
* Parsed IP addresses (the result of `net.ParseIP` together with the
  `To4()` test) are modelled by `Option ParsedIP`: `none` is a failed
  parse, `ParsedIP.v4` an address whose `To4()` is non-nil (stored as its
  four octets), `ParsedIP.v6` a 16-byte address whose `To4()` is nil.
* `fmt.Sprintf("%d", b)` on a byte is `natToDigits`, `%x` on a nibble is
  `hexNibble`.
* The network exchange (`dns.Client.ExchangeContext`) is modelled by an
  oracle `NetOracle` mapping a zone to either a transport error or a
  response with an Rcode.
-/

/-- Model of a Go string: a list of characters (runes). -/
abbrev Str := List Char

/-- Model of strings.HasPrefix-style matching: does `s` begin with `pat`? -/
def leadsWith : Str → Str → Bool
  | _, [] => true
  | [], _ :: _ => false
  | a :: as, b :: bs => a = b && leadsWith as bs

/-- Model of strings.Contains: does `pat` occur as a contiguous substring of `s`? -/
def containsSub : Str → Str → Bool
  | [], pat => leadsWith [] pat
  | c :: rest, pat => leadsWith (c :: rest) pat || containsSub rest pat

/-- Model of strings.HasSuffix. -/
def endsWith (s suf : Str) : Bool :=
  decide (suf.length ≤ s.length) && (s.drop (s.length - suf.length) == suf)

/-- Model of strings.TrimSuffix. -/
def trimSuffix (s suf : Str) : Str :=
  if endsWith s suf then s.take (s.length - suf.length) else s

/-- Model of strings.Split(s, "."): split on the dot separator.
strings.Split never returns an empty list (splitting the empty string
gives one empty field), which this definition reproduces. -/
def splitDots : Str → List Str
  | [] => [[]]
  | c :: cs =>
    if c = '.' then [] :: splitDots cs
    else
      match splitDots cs with
      | [] => [[c]]
      | l :: ls => (c :: l) :: ls

/-- Model of strings.Join(l, "."). -/
def joinDots : List Str → Str
  | [] => []
  | [l] => l
  | l :: l2 :: ls => l ++ '.' :: joinDots (l2 :: ls)

/-- Decimal digit character (codepoint 48 + d). -/
def digitChar (d : Nat) : Char := Char.ofNat (48 + d)

/-- Auxiliary decimal rendering, structurally recursive on a fuel argument
(fuel n is enough for the value n since n / 10 shrinks at every step). -/
def natToDigitsAux : Nat → Nat → Str
  | 0, _ => []
  | fuel + 1, n => if n = 0 then [] else natToDigitsAux fuel (n / 10) ++ [digitChar (n % 10)]

/-- Model of fmt.Sprintf("%d", n): decimal rendering of a natural number. -/
def natToDigits (n : Nat) : Str :=
  if n = 0 then ['0'] else natToDigitsAux n n

/-- Model of fmt.Sprintf("%x", n) for a nibble value: lowercase hex digit. -/
def hexNibble (n : Nat) : Char :=
  if n < 10 then Char.ofNat (48 + n) else Char.ofNat (87 + n)

/-- PTR record configuration (pkg/config, type PTRConfig). -/
structure PTRConfig where
  Enabled : Bool
  IPv4Zone : Str
  IPv4Subnet : Str
  IPv4SubnetSize : Int
  IPv6Enabled : Bool
  IPv6Zone : Str
  IPv6Subnet : Str
  IPv6SubnetSize : Int
deriving DecidableEq, Repr

/-- A DNS record handed to the bind client (pkg/bind, type DNSRecord).
The Go field Type is called Typ here because Type is a Lean keyword;
its value is the record-type string: "A", "AAAA" or "PTR". -/
structure DNSRecord where
  Name : Str
  Value : Str
  TTL : Nat
  Typ : Str
deriving DecidableEq, Repr, Inhabited

/-- The bind DDNS client (pkg/bind, type Client). -/
structure Client where
  server : Str
  port : Nat
  zone : Str
  keyName : Str
  keySecret : Str
  algorithm : Str
  ttl : Nat
  ptrConfig : Option PTRConfig
deriving DecidableEq, Repr

/-- The TSIG key produced by createTSIGKey: its header name and algorithm
string (the other dns.TSIG header fields are constants). -/
structure TSIGKey where
  Name : Str
  Algorithm : Str
deriving DecidableEq, Repr

/-- Result of net.ParseIP combined with the To4() test: `v4` stores the four
octets of an address whose To4() is non-nil; `v6` stores the sixteen bytes of
an address whose To4() is nil. A failed parse is `Option.none` at use sites. -/
inductive ParsedIP where
  | v4 (o0 o1 o2 o3 : Nat)
  | v6 (bytes : List Nat)
deriving DecidableEq, Repr

/-- The To16() view of a parsed address: a v4 address maps to the 16-byte
IPv4-mapped form. -/
def to16 : ParsedIP → List Nat
  | ParsedIP.v4 o0 o1 o2 o3 => [0, 0, 0, 0, 0, 0, 0, 0, 0, 0, 255, 255, o0, o1, o2, o3]
  | ParsedIP.v6 bs => bs

/-- A Tailscale machine as the app layer sees it (pkg/tailscale, type Machine;
the LastSeen field is unused by the record synthesis and omitted). -/
structure Machine where
  ID : Str
  Name : Str
  IPv4Address : Str
  IPv6Address : Str
  Online : Bool
deriving DecidableEq, Repr

/-- Model of dns.Fqdn: append a trailing dot when the name lacks one. -/
def fqdn (s : Str) : Str := if endsWith s ".".data then s else s ++ ".".data

/-- One record-level operation of a dynamic-update message (an entry of the
Ns section of a dns.Msg built with msg.RemoveRRset / msg.Insert).
removeRRset carries an owner name and record type only (class ANY, TTL 0,
no rdata); insert carries owner, type, TTL and the rdata value. -/
inductive UpdateOp where
  | removeRRset (name : Str) (rtype : Str)
  | insert (name : Str) (rtype : Str) (ttl : Nat) (value : Str)
deriving DecidableEq, Repr

instance : Inhabited UpdateOp := ⟨UpdateOp.removeRRset [] []⟩

/-- The two operations that the loop body of sendZoneUpdate (pkg/bind)
appends to the update message for a single record: a RemoveRRset for the
owner name and type, then an Insert of the new record. -/
def recordOps (zone : Str) (record : DNSRecord) : List UpdateOp :=
  if record.Typ = "PTR".data then
    [UpdateOp.removeRRset (fqdn record.Name) "PTR".data,
     UpdateOp.insert (fqdn record.Name) "PTR".data record.TTL (fqdn record.Value)]
  else if record.Typ = "AAAA".data then
    [UpdateOp.removeRRset (fqdn (record.Name ++ ".".data ++ zone)) "AAAA".data,
     UpdateOp.insert (fqdn (record.Name ++ ".".data ++ zone)) "AAAA".data record.TTL record.Value]
  else
    [UpdateOp.removeRRset (fqdn (record.Name ++ ".".data ++ zone)) "A".data,
     UpdateOp.insert (fqdn (record.Name ++ ".".data ++ zone)) "A".data record.TTL record.Value]

/-- The sequence of record operations sendZoneUpdate (pkg/bind) adds to the
update message for a zone batch: the per-record loop appends the two
operations of recordOps for each record in batch order. -/
def buildZoneUpdateOps (zone : Str) (records : List DNSRecord) : List UpdateOp :=
  records.flatMap (recordOps zone)

/-- createTSIGKey (pkg/bind): default an empty algorithm string to
hmac-sha256, reject anything outside the enumerated set, and build the
dns.TSIG with the key name and the algorithm in FQDN form ("%s."). -/
def createTSIGKey (c : Client) : Except String TSIGKey :=
  let algorithm := if c.algorithm = [] then "hmac-sha256".data else c.algorithm
  if algorithm = "hmac-md5".data ∨ algorithm = "hmac-sha1".data ∨
      algorithm = "hmac-sha256".data ∨ algorithm = "hmac-sha384".data ∨
      algorithm = "hmac-sha512".data then
    Except.ok ⟨c.keyName, algorithm ++ ".".data⟩
  else
    Except.error "unsupported TSIG algorithm"

/-- generateIPv4PTRZone (pkg/bind): reverse zone of an IPv4 address for a
subnet size of 8, 16 or 24. The textual net.ParseIP / To4() step of the
source is the Option ParsedIP argument. -/
def generateIPv4PTRZone (ip : Option ParsedIP) (subnetSize : Int) : Except String Str :=
  match ip with
  | some (ParsedIP.v4 o0 o1 o2 _o3) =>
    if subnetSize = 8 then
      Except.ok (natToDigits o0 ++ ".in-addr.arpa".data)
    else if subnetSize = 16 then
      Except.ok (natToDigits o1 ++ ".".data ++ natToDigits o0 ++ ".in-addr.arpa".data)
    else if subnetSize = 24 then
      Except.ok (natToDigits o2 ++ ".".data ++ natToDigits o1 ++ ".".data ++
        natToDigits o0 ++ ".in-addr.arpa".data)
    else
      Except.error "unsupported IPv4 subnet size"
  | _ => Except.error "invalid IPv4 address"

/-- The nibble labels of ipv6ToReverseDNS (pkg/bind): bytes from last to
first, low nibble before high nibble ((b & 0x0f) then (b & 0xf0) >> 4). -/
def ipv6Nibbles (bytes : List Nat) : List Str :=
  bytes.reverse.flatMap (fun b => [[hexNibble (b % 16)], [hexNibble (b / 16 % 16)]])

/-- ipv6ToReverseDNS (pkg/bind): full reverse-DNS form of an address.
A failed parse returns the empty string; To16() of a v4 address is its
IPv4-mapped 16-byte form (to16). -/
def ipv6ToReverseDNS (ip : Option ParsedIP) : Str :=
  match ip with
  | none => []
  | some p => joinDots (ipv6Nibbles (to16 p)) ++ ".ip6.arpa.".data

/-- generateIPv6PTRZone (pkg/bind): reverse zone of an IPv6 address for a
subnet size of 32, 48 or 64, keeping the last 8, 12 or 16 nibble labels. -/
def generateIPv6PTRZone (ip : Option ParsedIP) (subnetSize : Int) : Except String Str :=
  match ip with
  | some (ParsedIP.v6 bytes) =>
    let nibbles := ipv6ToReverseDNS (some (ParsedIP.v6 bytes))
    if nibbles = [] then Except.error "failed to convert IPv6 to reverse DNS format"
    else
      let nibbles := trimSuffix nibbles ".ip6.arpa.".data
      let nibblesToUse : Option Nat :=
        if subnetSize = 32 then some 8
        else if subnetSize = 48 then some 12
        else if subnetSize = 64 then some 16
        else none
      match nibblesToUse with
      | none => Except.error "unsupported IPv6 subnet size"
      | some k =>
        let nibbleParts := splitDots nibbles
        if nibbleParts.length < k then Except.error "not enough nibbles for subnet size"
        else Except.ok (joinDots (nibbleParts.drop (nibbleParts.length - k)) ++ ".ip6.arpa".data)
  | _ => Except.error "invalid IPv6 address"

/-- extractIPv4ZoneFromPTRName (pkg/bind): re-derive the zone of an IPv4 PTR
record from its owner name; returns the empty string when PTR support is
off, the name does not have four labels, or the subnet size is unsupported. -/
def extractIPv4ZoneFromPTRName (c : Client) (ptrName : Str) : Str :=
  match c.ptrConfig with
  | none => []
  | some cfg =>
    if cfg.Enabled = false then []
    else
      let name := trimSuffix ptrName ".in-addr.arpa.".data
      let name := trimSuffix name ".".data
      let octets := splitDots name
      if octets.length ≠ 4 then []
      else if cfg.IPv4SubnetSize = 8 then
        octets.getD 3 [] ++ ".in-addr.arpa".data
      else if cfg.IPv4SubnetSize = 16 then
        octets.getD 2 [] ++ ".".data ++ octets.getD 3 [] ++ ".in-addr.arpa".data
      else if cfg.IPv4SubnetSize = 24 then
        octets.getD 1 [] ++ ".".data ++ octets.getD 2 [] ++ ".".data ++
          octets.getD 3 [] ++ ".in-addr.arpa".data
      else []

/-- extractIPv6ZoneFromPTRName (pkg/bind): re-derive the zone of an IPv6 PTR
record from its owner name. -/
def extractIPv6ZoneFromPTRName (c : Client) (ptrName : Str) : Str :=
  match c.ptrConfig with
  | none => []
  | some cfg =>
    if cfg.Enabled = false ∨ cfg.IPv6Enabled = false then []
    else
      let name := trimSuffix ptrName ".ip6.arpa.".data
      let name := trimSuffix name ".".data
      let nibbles := splitDots name
      if nibbles.length < 8 then []
      else
        let nibblesToUse : Option Nat :=
          if cfg.IPv6SubnetSize = 32 then some 8
          else if cfg.IPv6SubnetSize = 48 then some 12
          else if cfg.IPv6SubnetSize = 64 then some 16
          else none
        match nibblesToUse with
        | none => []
        | some k =>
          if nibbles.length < k then []
          else joinDots (nibbles.drop (nibbles.length - k)) ++ ".ip6.arpa".data

/-- The zone chosen for one record by the grouping loop of UpdateRecords
(pkg/bind): PTR records dispatch on the reverse-DNS suffix contained in the
owner name, everything else goes to the client's static zone; the empty
string means the zone could not be resolved. -/
def zoneForRecord (c : Client) (record : DNSRecord) : Str :=
  if record.Typ = "PTR".data then
    if containsSub record.Name ".in-addr.arpa.".data then
      extractIPv4ZoneFromPTRName c record.Name
    else if containsSub record.Name ".ip6.arpa.".data then
      extractIPv6ZoneFromPTRName c record.Name
    else []
  else c.zone

/-- Append a record to the batch of its zone, keeping first-insertion key
order (model of recordsByZone[zone] = append(recordsByZone[zone], record);
the claims settled here do not depend on Go's unspecified map order). -/
def insertGrouped (m : List (Str × List DNSRecord)) (z : Str) (r : DNSRecord) :
    List (Str × List DNSRecord) :=
  match m with
  | [] => [(z, [r])]
  | (z1, rs) :: rest =>
    if z1 = z then (z1, rs ++ [r]) :: rest else (z1, rs) :: insertGrouped rest z r

/-- The per-zone grouping performed by UpdateRecords (pkg/bind) before any
update message is built: records with an empty resolved zone are dropped. -/
def groupRecordsByZone (c : Client) (records : List DNSRecord) :
    List (Str × List DNSRecord) :=
  records.foldl
    (fun m record =>
      let z := zoneForRecord c record
      if z = [] then m else insertGrouped m z record)
    []

/-- A DNS response as far as UpdateRecords inspects it: its Rcode
(dns.RcodeSuccess = 0). -/
structure DNSResponse where
  Rcode : Nat
deriving DecidableEq, Repr

/-- Network oracle: the outcome of client.ExchangeContext for the update
message of one zone — a transport error, or a response with an Rcode. -/
def NetOracle := Str → Except String DNSResponse

/-- sendZoneUpdate (pkg/bind) after the message is built and signed: a
transport error or a non-success Rcode is an error for this zone. -/
def sendZoneUpdate (net : NetOracle) (zone : Str) (records : List DNSRecord) :
    Except String Unit :=
  let _msg := buildZoneUpdateOps zone records
  match net zone with
  | Except.error e => Except.error e
  | Except.ok response =>
    if response.Rcode = 0 then Except.ok ()
    else Except.error "DNS update failed with Rcode"

/-- Outcome of one UpdateRecords cycle: the returned error value and the
zone batches for which a network exchange was attempted, in order. -/
structure UpdateOutcome where
  result : Except String Unit
  sent : List (Str × List DNSRecord)
deriving Repr

/-- The per-zone send loop of UpdateRecords (pkg/bind): on the first zone
whose sendZoneUpdate fails, the error is returned at once and no further
zone is processed. -/
def sendLoop (net : NetOracle) : List (Str × List DNSRecord) →
    List (Str × List DNSRecord) → UpdateOutcome
  | [], sent => ⟨Except.ok (), sent⟩
  | (z, rs) :: rest, sent =>
    match sendZoneUpdate net z rs with
    | Except.error e => ⟨Except.error e, sent ++ [(z, rs)]⟩
    | Except.ok () => sendLoop net rest (sent ++ [(z, rs)])

/-- UpdateRecords (pkg/bind): dry-run and empty-list short circuits, the
per-zone grouping, TSIG key creation (before any network activity), then
the per-zone send loop. -/
def updateRecords (c : Client) (net : NetOracle) (records : List DNSRecord)
    (dryRun : Bool) : UpdateOutcome :=
  if dryRun then ⟨Except.ok (), []⟩
  else if records.length = 0 then ⟨Except.ok (), []⟩
  else
    let recordsByZone := groupRecordsByZone c records
    match createTSIGKey c with
    | Except.error e => ⟨Except.error e, []⟩
    | Except.ok _key => sendLoop net recordsByZone []

/-- Character class of the regexp [^a-zA-Z0-9.-] used by sanitizeDNSName:
true for the characters the regexp does NOT replace. -/
def isAlphaNumDotDash (ch : Char) : Bool :=
  ('a' ≤ ch && ch ≤ 'z') || ('A' ≤ ch && ch ≤ 'Z') || ('0' ≤ ch && ch ≤ '9') ||
    ch = '.' || ch = '-'

/-- The first regexp replacement of sanitizeDNSName: every character
outside [a-zA-Z0-9.-] becomes a hyphen. -/
def replaceInvalid (s : Str) : Str :=
  s.map (fun ch => if isAlphaNumDotDash ch then ch else '-')

/-- The second regexp replacement of sanitizeDNSName: each maximal run of
hyphens collapses to a single hyphen. -/
def collapseHyphens : Str → Str
  | [] => []
  | [c] => [c]
  | c :: c2 :: cs =>
    if c = '-' && c2 = '-' then collapseHyphens (c2 :: cs)
    else c :: collapseHyphens (c2 :: cs)

/-- Member of the cutset of strings.Trim(s, "-."). -/
def isTrimChar (ch : Char) : Bool := ch = '-' || ch = '.'

/-- Model of strings.Trim(s, "-."): drop leading and trailing hyphens and
dots. -/
def trimHyphensDots (s : Str) : Str :=
  ((s.dropWhile isTrimChar).reverse.dropWhile isTrimChar).reverse

/-- Per-character ASCII lower-casing. -/
def lowerChar (ch : Char) : Char :=
  if 'A' ≤ ch && ch ≤ 'Z' then Char.ofNat (ch.toNat + 32) else ch

/-- Model of strings.ToLower on the strings reaching it in sanitizeDNSName:
by that point every character lies in [A-Za-z0-9-] (anything else was
already replaced by a hyphen), so only the ASCII mapping is exercised. -/
def toLowerAscii (s : Str) : Str := s.map lowerChar

/-- sanitizeDNSName (pkg app layer): keep the first dot-separated label,
replace characters outside [a-zA-Z0-9.-] with hyphens, collapse hyphen
runs, trim leading/trailing hyphens and dots, substitute the placeholder
"machine" when empty, and lower-case. -/
def sanitizeDNSName (name : Str) : Str :=
  let hostname := (splitDots name).headD []
  let sanitized := replaceInvalid hostname
  let sanitized := collapseHyphens sanitized
  let sanitized := trimHyphensDots sanitized
  let sanitized := if sanitized = [] then "machine".data else sanitized
  toLowerAscii sanitized

/-- machinesToRecords (pkg app layer): one A record per online machine with
an IPv4 address and one AAAA record per online machine with an IPv6 address,
owner name taken from the display name (identifier fallback) and sanitized;
ttlSeconds is uint32(config.Bind.TTL.Seconds()). -/
def machinesToRecords (ttlSeconds : Nat) (machines : List Machine) : List DNSRecord :=
  machines.foldl
    (fun records machine =>
      if machine.Online = false then records
      else
        let recordName := if machine.Name = [] then machine.ID else machine.Name
        let recordName := sanitizeDNSName recordName
        let records :=
          if machine.IPv4Address ≠ [] then
            records ++ [⟨recordName, machine.IPv4Address, ttlSeconds, "A".data⟩]
          else records
        if machine.IPv6Address ≠ [] then
          records ++ [⟨recordName, machine.IPv6Address, ttlSeconds, "AAAA".data⟩]
        else records)
    []

/-- CreatePTRRecord (pkg/bind): build the reverse-DNS owner name for an
address and return a PTR record pointing at the given hostname, or nothing
when PTR support is off, the family is disabled, or the address is outside
the configured validation subnet. The textual net.ParseIP step is the
parse oracle; the net.ParseCIDR / Contains test is the inSubnet oracle. -/
def CreatePTRRecord (c : Client) (parse : Str → Option ParsedIP)
    (inSubnet : Str → Str → Bool) (ipStr hostname : Str) :
    Except String (Option DNSRecord) :=
  match c.ptrConfig with
  | none => Except.ok none
  | some cfg =>
    if cfg.Enabled = false then Except.ok none
    else
      match parse ipStr with
      | none => Except.error "invalid IP address"
      | some (ParsedIP.v4 _ _ _ _) =>
        if inSubnet ipStr cfg.IPv4Subnet = false then Except.ok none
        else
          let parts := splitDots ipStr
          if parts.length ≠ 4 then Except.error "invalid IPv4 address format"
          else
            Except.ok (some
              ⟨parts.getD 3 [] ++ ".".data ++ parts.getD 2 [] ++ ".".data ++
                  parts.getD 1 [] ++ ".".data ++ parts.getD 0 [] ++ ".in-addr.arpa.".data,
                hostname, c.ttl, "PTR".data⟩)
      | some (ParsedIP.v6 bytes) =>
        if cfg.IPv6Enabled = false then Except.ok none
        else if inSubnet ipStr cfg.IPv6Subnet = false then Except.ok none
        else
          Except.ok (some
            ⟨ipv6ToReverseDNS (some (ParsedIP.v6 bytes)), hostname, c.ttl, "PTR".data⟩)

/-- The reverse-DNS owner name CreatePTRRecord builds for the canonical
dotted-quad text of an IPv4 address: the four octets in reverse order
suffixed ".in-addr.arpa.". -/
def ipv4ReversePtrName (o0 o1 o2 o3 : Nat) : Str :=
  natToDigits o3 ++ ".".data ++ natToDigits o2 ++ ".".data ++
    natToDigits o1 ++ ".".data ++ natToDigits o0 ++ ".in-addr.arpa.".data

/-- The PTR records one machine contributes in createPTRRecords (pkg app
layer): offline machines contribute nothing; an error from CreatePTRRecord
on the IPv4 address skips the rest of that machine (Go continue); an error
on the IPv6 address only loses that record. -/
def machinePTRRecords (c : Client) (parse : Str → Option ParsedIP)
    (inSubnet : Str → Str → Bool) (machine : Machine) : List DNSRecord :=
  if machine.Online = false then []
  else
    let recordName := if machine.Name = [] then machine.ID else machine.Name
    let recordName := sanitizeDNSName recordName
    let hostname := recordName ++ ".".data ++ c.zone
    let v6Part : List DNSRecord :=
      if machine.IPv6Address ≠ [] then
        match CreatePTRRecord c parse inSubnet machine.IPv6Address hostname with
        | Except.error _ => []
        | Except.ok o => o.toList
      else []
    if machine.IPv4Address ≠ [] then
      match CreatePTRRecord c parse inSubnet machine.IPv4Address hostname with
      | Except.error _ => []
      | Except.ok o => o.toList ++ v6Part
    else v6Part

/-- createPTRRecords (pkg app layer): nothing when PTR records are
disabled in the configuration, else the per-machine PTR records in machine
order. -/
def createPTRRecords (c : Client) (cfg : PTRConfig) (parse : Str → Option ParsedIP)
    (inSubnet : Str → Str → Bool) (machines : List Machine) : List DNSRecord :=
  if cfg.Enabled = false then []
  else machines.flatMap (machinePTRRecords c parse inSubnet)

/-- One cycle of convertMachinesToRecords (pkg app layer): the forward
records followed by the PTR records. -/
def allRecordsFor (c : Client) (cfg : PTRConfig) (parse : Str → Option ParsedIP)
    (inSubnet : Str → Str → Bool) (ttlSeconds : Nat) (machines : List Machine) :
    List DNSRecord :=
  machinesToRecords ttlSeconds machines ++ createPTRRecords c cfg parse inSubnet machines

/-! General lemmas about the string model. -/

theorem charOfNat_toNat (n : Nat) (h : n < 0xD800) : (Char.ofNat n).toNat = n := by
  unfold Char.ofNat
  rw [dif_pos (Or.inl h)]
  rfl

theorem endsWith_append (x s : Str) : endsWith (x ++ s) s = true := by
  simp [endsWith, List.length_append, Nat.add_sub_cancel]

theorem trimSuffix_append (x s : Str) : trimSuffix (x ++ s) s = x := by
  simp [trimSuffix, endsWith_append, List.length_append, Nat.add_sub_cancel, List.take_left]

theorem endsWith_concat (s : Str) (a c : Char) : endsWith (s ++ [a]) [c] = (a == c) := by
  have h1 : (s ++ [a]).length - 1 = s.length := by simp
  have h2 : (s ++ [a]).drop s.length = [a] := List.drop_left s [a]
  simp [endsWith, h1, h2]

theorem trimSuffix_single_of_getLast?_ne (s : Str) (c : Char) (h : s.getLast? ≠ some c) :
    trimSuffix s [c] = s := by
  rcases eq_or_ne s [] with hs | hs
  · subst hs; rfl
  · have hlast : s.getLast hs ≠ c := by
      intro hc
      exact h (by rw [List.getLast?_eq_getLast _ hs, hc])
    have hew : endsWith s [c] = false := by
      conv_lhs => rw [← List.dropLast_append_getLast hs]
      rw [endsWith_concat]
      simp [hlast]
    simp [trimSuffix, hew]

theorem splitDots_ne_nil (s : Str) : splitDots s ≠ [] := by
  cases s with
  | nil => simp [splitDots]
  | cons c cs =>
    by_cases h : c = '.'
    · simp [splitDots, h]
    · simp only [splitDots, h, if_false]
      cases hsd : splitDots cs <;> simp

theorem splitDots_no_dot (s : Str) (h : '.' ∉ s) : splitDots s = [s] := by
  induction s with
  | nil => rfl
  | cons c cs ih =>
    have hc : ¬(c = '.') := by
      intro hc
      exact h (by simp [hc])
    have hcs : '.' ∉ cs := fun m => h (List.mem_cons_of_mem _ m)
    simp [splitDots, hc, ih hcs]

theorem splitDots_dot_append (a rest : Str) (h : '.' ∉ a) :
    splitDots (a ++ '.' :: rest) = a :: splitDots rest := by
  induction a with
  | nil => simp [splitDots]
  | cons c cs ih =>
    have hc : ¬(c = '.') := by
      intro hc
      exact h (by simp [hc])
    have hcs : '.' ∉ cs := fun m => h (List.mem_cons_of_mem _ m)
    have ihcs := ih hcs
    simp only [List.cons_append, splitDots, hc, if_false, ihcs]
    cases hsd : splitDots rest <;> simp_all

theorem splitDots_joinDots (ls : List Str) (hne : ls ≠ [])
    (h : ∀ l ∈ ls, '.' ∉ l) : splitDots (joinDots ls) = ls := by
  induction ls with
  | nil => exact absurd rfl hne
  | cons l ls ih =>
    cases ls with
    | nil =>
      simp [joinDots, splitDots_no_dot l (h l (by simp))]
    | cons l2 ls2 =>
      have hl : '.' ∉ l := h l (by simp)
      have hrest : ∀ x ∈ l2 :: ls2, '.' ∉ x := fun x hx => h x (by simp [hx])
      rw [joinDots, splitDots_dot_append l _ hl, ih (by simp) hrest]

theorem splitDots_mem_no_dot (s : Str) : ∀ p ∈ splitDots s, '.' ∉ p := by
  induction s with
  | nil =>
    intro p hp
    simp [splitDots] at hp
    simp [hp]
  | cons c cs ih =>
    intro p hp
    by_cases hc : c = '.'
    · simp [splitDots, hc] at hp
      rcases hp with hp | hp
      · simp [hp]
      · exact ih p hp
    · simp only [splitDots, hc, if_false] at hp
      cases hsd : splitDots cs with
      | nil => exact absurd hsd (splitDots_ne_nil cs)
      | cons l lsrest =>
        rw [hsd] at hp
        simp at hp
        rcases hp with hp | hp
        · subst hp
          intro hmem
          rcases List.mem_cons.mp hmem with h1 | h1
          · exact hc h1.symm
          · exact ih l (by simp [hsd]) h1
        · exact ih p (by simp [hsd, hp])

theorem digitChar_range (d : Nat) (h : d < 10) :
    48 ≤ (digitChar d).toNat ∧ (digitChar d).toNat ≤ 57 := by
  interval_cases d <;> simp [digitChar]

theorem digitChar_ne_dot (d : Nat) (h : d < 10) : digitChar d ≠ '.' := by
  intro hc
  have := digitChar_range d h
  rw [hc] at this
  simp at this

theorem natToDigitsAux_mem (fuel n : Nat) :
    ∀ ch ∈ natToDigitsAux fuel n, ∃ d, d < 10 ∧ ch = digitChar d := by
  induction fuel generalizing n with
  | zero => intro ch hch; simp [natToDigitsAux] at hch
  | succ fuel ih =>
    intro ch hch
    by_cases hn : n = 0
    · simp [natToDigitsAux, hn] at hch
    · simp only [natToDigitsAux, hn, if_false, List.mem_append, List.mem_singleton] at hch
      rcases hch with hch | hch
      · exact ih (n / 10) ch hch
      · exact ⟨n % 10, Nat.mod_lt n (by norm_num), hch⟩

theorem natToDigits_ne_nil (n : Nat) : natToDigits n ≠ [] := by
  unfold natToDigits
  split
  · simp
  · rename_i hn
    obtain ⟨m, rfl⟩ : ∃ m, n = m + 1 := ⟨n - 1, by omega⟩
    simp [natToDigitsAux, hn]

theorem natToDigits_no_dot (n : Nat) : '.' ∉ natToDigits n := by
  unfold natToDigits
  split
  · decide
  · intro hmem
    obtain ⟨d, hd, hdc⟩ := natToDigitsAux_mem n n '.' hmem
    exact digitChar_ne_dot d hd hdc.symm

theorem hexNibble_ne_dot (n : Nat) (h : n < 16) : hexNibble n ≠ '.' := by
  interval_cases n <;> decide

/-! Concrete example configurations, records and oracles used in closed
theorems below. -/

/-- Example PTR configuration: enabled, IPv4 boundary size 16. -/
def egCfg : PTRConfig :=
  ⟨true, "100.in-addr.arpa".data, "100.64.0.0/10".data, 16, false, [], [], 64⟩

/-- Example client for the forward zone example.com with egCfg. -/
def egClient : Client :=
  ⟨"dns.example.com".data, 53, "example.com".data, "test-key".data,
    "test-secret".data, "hmac-sha256".data, 300, some egCfg⟩

/-- Example client whose signing algorithm string is empty. -/
def egClientEmptyAlg : Client :=
  ⟨"dns.example.com".data, 53, "example.com".data, "test-key".data,
    "test-secret".data, [], 300, some egCfg⟩

/-- Example client with an unsupported signing algorithm string. -/
def egClientBadAlg : Client :=
  ⟨"dns.example.com".data, 53, "example.com".data, "test-key".data,
    "test-secret".data, "invalid-algorithm".data, 300, some egCfg⟩

/-- Example forward A record (routed to the static forward zone). -/
def egRecordA : DNSRecord := ⟨"m1".data, "100.64.1.1".data, 300, "A".data⟩

/-- Example PTR record whose owner name resolves to 64.100.in-addr.arpa
under egCfg. -/
def egRecordPtr : DNSRecord :=
  ⟨"1.1.64.100.in-addr.arpa.".data, "m1.example.com.".data, 300, "PTR".data⟩

/-- Network oracle on which every exchange fails with a transport error. -/
def egNetFail : NetOracle := fun _ => Except.error "network unreachable"

/-- Network oracle on which every exchange succeeds with Rcode 0. -/
def egNetOk : NetOracle := fun _ => Except.ok ⟨0⟩

/-! Claim C5. -/

/-- C5: for every valid IPv4 address (four octets below 256), the reverse
zone at boundary size 8, 16 or 24 is the most-significant 1, 2 or 3 octets
in reverse order suffixed ".in-addr.arpa"; any other boundary size errors,
and a non-IPv4 input (failed parse or 16-byte IPv6) errors; in particular
100.64.0.1 maps to 100.in-addr.arpa, 64.100.in-addr.arpa and
0.64.100.in-addr.arpa at sizes 8, 16 and 24. -/
theorem generateIPv4PTRZone_spec (o0 o1 o2 o3 : Nat)
    (_h0 : o0 < 256) (_h1 : o1 < 256) (_h2 : o2 < 256) (_h3 : o3 < 256) :
    generateIPv4PTRZone (some (ParsedIP.v4 o0 o1 o2 o3)) 8 =
      Except.ok (natToDigits o0 ++ ".in-addr.arpa".data) ∧
    generateIPv4PTRZone (some (ParsedIP.v4 o0 o1 o2 o3)) 16 =
      Except.ok (natToDigits o1 ++ ".".data ++ natToDigits o0 ++ ".in-addr.arpa".data) ∧
    generateIPv4PTRZone (some (ParsedIP.v4 o0 o1 o2 o3)) 24 =
      Except.ok (natToDigits o2 ++ ".".data ++ natToDigits o1 ++ ".".data ++
        natToDigits o0 ++ ".in-addr.arpa".data) ∧
    (∀ sz : Int, sz ≠ 8 → sz ≠ 16 → sz ≠ 24 →
      generateIPv4PTRZone (some (ParsedIP.v4 o0 o1 o2 o3)) sz =
        Except.error "unsupported IPv4 subnet size") ∧
    (∀ sz : Int, generateIPv4PTRZone none sz = Except.error "invalid IPv4 address") ∧
    (∀ (bytes : List Nat) (sz : Int),
      generateIPv4PTRZone (some (ParsedIP.v6 bytes)) sz =
        Except.error "invalid IPv4 address") ∧
    generateIPv4PTRZone (some (ParsedIP.v4 100 64 0 1)) 8 =
      Except.ok "100.in-addr.arpa".data ∧
    generateIPv4PTRZone (some (ParsedIP.v4 100 64 0 1)) 16 =
      Except.ok "64.100.in-addr.arpa".data ∧
    generateIPv4PTRZone (some (ParsedIP.v4 100 64 0 1)) 24 =
      Except.ok "0.64.100.in-addr.arpa".data := by
  refine ⟨rfl, rfl, rfl, ?_, fun sz => rfl, fun bytes sz => rfl, rfl, rfl, rfl⟩
  intro sz hs8 hs16 hs24
  simp [generateIPv4PTRZone, hs8, hs16, hs24]

/-- Witness for C5 at the concrete address 100.64.0.1. -/
theorem generateIPv4PTRZone_spec_witness :
    generateIPv4PTRZone (some (ParsedIP.v4 100 64 0 1)) 8 =
      Except.ok (natToDigits 100 ++ ".in-addr.arpa".data) :=
  (generateIPv4PTRZone_spec 100 64 0 1 (by norm_num) (by norm_num) (by norm_num)
    (by norm_num)).1

/-! Claim C9. -/

/-- C9: an empty signing algorithm string is not rejected: TSIG key creation
succeeds and the key carries the defaulted algorithm hmac-sha256 (in the
FQDN form "hmac-sha256." used by the dns library). -/
theorem createTSIGKey_empty_algorithm_defaults (c : Client) (h : c.algorithm = []) :
    createTSIGKey c = Except.ok ⟨c.keyName, "hmac-sha256.".data⟩ := by
  simp [createTSIGKey, h]

/-- Witness for C9 on the concrete client with an empty algorithm string. -/
theorem createTSIGKey_empty_algorithm_defaults_witness :
    createTSIGKey egClientEmptyAlg =
      Except.ok ⟨"test-key".data, "hmac-sha256.".data⟩ :=
  createTSIGKey_empty_algorithm_defaults egClientEmptyAlg rfl

/-! Claim C8. -/

/-- Helper for C8: with a non-empty algorithm outside the enumerated set,
createTSIGKey fails. -/
theorem createTSIGKey_unsupported (c : Client) (halg : c.algorithm ≠ [])
    (hbad : c.algorithm ∉ ["hmac-md5".data, "hmac-sha1".data, "hmac-sha256".data,
      "hmac-sha384".data, "hmac-sha512".data]) :
    createTSIGKey c = Except.error "unsupported TSIG algorithm" := by
  simp only [List.mem_cons, List.mem_singleton, not_or] at hbad
  obtain ⟨b1, b2, b3, b4, b5⟩ := hbad
  simp [createTSIGKey, halg, b1, b2, b3, b4, b5]

/-- C8 (amended): for every non-empty record list and non-dry-run
invocation, a non-empty signing algorithm string outside the enumerated
set makes the update fail with the unsupported-algorithm error before any
network exchange is attempted (the sent list is empty). The amendment
restricts the claim to non-empty algorithm strings: the empty string is
also outside the enumerated set but is silently defaulted to hmac-sha256
(see the counterexample and C9). -/
theorem updateRecords_unsupported_algorithm (c : Client) (net : NetOracle)
    (records : List DNSRecord) (hne : records ≠ [])
    (halg : c.algorithm ≠ [])
    (hbad : c.algorithm ∉ ["hmac-md5".data, "hmac-sha1".data, "hmac-sha256".data,
      "hmac-sha384".data, "hmac-sha512".data]) :
    updateRecords c net records false = ⟨Except.error "unsupported TSIG algorithm", []⟩ := by
  have hk := createTSIGKey_unsupported c halg hbad
  cases records with
  | nil => exact absurd rfl hne
  | cons r rest => simp [updateRecords, hk]

/-- Witness for C8 (amended) on a concrete client with algorithm
"invalid-algorithm" and one record. -/
theorem updateRecords_unsupported_algorithm_witness :
    updateRecords egClientBadAlg egNetOk [egRecordA] false =
      ⟨Except.error "unsupported TSIG algorithm", []⟩ :=
  updateRecords_unsupported_algorithm egClientBadAlg egNetOk [egRecordA]
    (List.cons_ne_nil _ _) (by decide) (by decide)

/-- Counterexample to C8 as stated: the empty algorithm string is not one
of the five enumerated algorithms, yet with a non-empty record list and
non-dry-run invocation the update does not fail — the key is silently
defaulted and a network exchange is attempted (the zone batch is sent and
the cycle succeeds). -/
theorem updateRecords_unsupported_algorithm_counterexample :
    (([] : Str) ∈ ["hmac-md5".data, "hmac-sha1".data, "hmac-sha256".data,
        "hmac-sha384".data, "hmac-sha512".data]) = False ∧
    createTSIGKey egClientEmptyAlg =
      Except.ok ⟨"test-key".data, "hmac-sha256.".data⟩ ∧
    (updateRecords egClientEmptyAlg egNetOk [egRecordA] false).result = Except.ok () ∧
    (updateRecords egClientEmptyAlg egNetOk [egRecordA] false).sent =
      [("example.com".data, [egRecordA])] := by
  refine ⟨by simp, rfl, rfl, by decide⟩

/-! Claim C3. -/

/-- The owner name used by both operations sendZoneUpdate emits for a
record: PTR records use their own (fqdn) name, forward records get the
zone appended. -/
def opOwnerName (zone : Str) (record : DNSRecord) : Str :=
  if record.Typ = "PTR".data then fqdn record.Name
  else fqdn (record.Name ++ ".".data ++ zone)

/-- The wire record type used by both operations sendZoneUpdate emits for
a record (anything other than PTR and AAAA is written as an A record). -/
def opRType (record : DNSRecord) : Str :=
  if record.Typ = "PTR".data then "PTR".data
  else if record.Typ = "AAAA".data then "AAAA".data
  else "A".data

/-- The rdata value carried by the insert operation for a record (PTR
targets are written in FQDN form). -/
def opValue (record : DNSRecord) : Str :=
  if record.Typ = "PTR".data then fqdn record.Value else record.Value

/-- The two operations for one record are always a removeRRset without a
value followed by an insert with the full data. -/
theorem recordOps_eq (zone : Str) (record : DNSRecord) :
    recordOps zone record =
      [UpdateOp.removeRRset (opOwnerName zone record) (opRType record),
        UpdateOp.insert (opOwnerName zone record) (opRType record) record.TTL
          (opValue record)] := by
  by_cases h1 : record.Typ = "PTR".data
  · simp [recordOps, opOwnerName, opRType, opValue, h1]
  · by_cases h2 : record.Typ = "AAAA".data
    · simp [recordOps, opOwnerName, opRType, opValue, h1, h2]
    · simp [recordOps, opOwnerName, opRType, opValue, h1, h2]

/-- C3: the update message built for a batch of N records contains exactly
2N record operations; for the i-th record of the batch, operation 2i is a
delete-RRset addressed by its owner name and record type (with no value),
and operation 2i+1 is the insert carrying owner, type, TTL and value. -/
theorem buildZoneUpdateOps_spec (zone : Str) (records : List DNSRecord) :
    (buildZoneUpdateOps zone records).length = 2 * records.length ∧
    ∀ i, i < records.length →
      (buildZoneUpdateOps zone records).getD (2 * i) default =
        UpdateOp.removeRRset (opOwnerName zone (records.getD i default))
          (opRType (records.getD i default)) ∧
      (buildZoneUpdateOps zone records).getD (2 * i + 1) default =
        UpdateOp.insert (opOwnerName zone (records.getD i default))
          (opRType (records.getD i default)) (records.getD i default).TTL
          (opValue (records.getD i default)) := by
  induction records with
  | nil => exact ⟨rfl, fun i hi => absurd hi (by simp)⟩
  | cons r rest ih =>
    have hcons : buildZoneUpdateOps zone (r :: rest) =
        UpdateOp.removeRRset (opOwnerName zone r) (opRType r) ::
          UpdateOp.insert (opOwnerName zone r) (opRType r) r.TTL (opValue r) ::
            buildZoneUpdateOps zone rest := by
      rw [buildZoneUpdateOps, List.flatMap_cons, recordOps_eq]
      rfl
    constructor
    · rw [hcons]
      simp only [List.length_cons, ih.1, List.length_cons]
      omega
    · intro i hi
      cases i with
      | zero => rw [hcons]; exact ⟨rfl, rfl⟩
      | succ j =>
        have hj : j < rest.length := by simpa using hi
        have h2 : 2 * (j + 1) = 2 * j + 1 + 1 := by omega
        rw [hcons, h2]
        simp only [List.getD_cons_succ]
        exact (ih.2 j hj)

/-- Witness for C3: the concrete one-record batch for the forward zone. -/
theorem buildZoneUpdateOps_spec_witness :
    (buildZoneUpdateOps "example.com".data [egRecordA]).length = 2 ∧
    (buildZoneUpdateOps "example.com".data [egRecordA]).getD 0 default =
      UpdateOp.removeRRset (opOwnerName "example.com".data egRecordA)
        (opRType egRecordA) ∧
    (buildZoneUpdateOps "example.com".data [egRecordA]).getD 1 default =
      UpdateOp.insert (opOwnerName "example.com".data egRecordA)
        (opRType egRecordA) egRecordA.TTL (opValue egRecordA) := by
  have h := buildZoneUpdateOps_spec "example.com".data [egRecordA]
  have h0 := h.2 0 (by norm_num)
  exact ⟨h.1, h0.1, h0.2⟩

/-! Claim C1. -/

/-- Helper for C1: when every batch before some failing batch succeeds,
the send loop stops at the failing batch with its error; the batches after
it are never sent. -/
theorem sendLoop_stops_at_error (net : NetOracle) (g1 : List (Str × List DNSRecord))
    (z : Str) (rs : List DNSRecord) (g2 : List (Str × List DNSRecord)) (e : String)
    (sent : List (Str × List DNSRecord))
    (h1 : ∀ p ∈ g1, sendZoneUpdate net p.1 p.2 = Except.ok ())
    (hz : sendZoneUpdate net z rs = Except.error e) :
    sendLoop net (g1 ++ (z, rs) :: g2) sent = ⟨Except.error e, sent ++ g1 ++ [(z, rs)]⟩ := by
  induction g1 generalizing sent with
  | nil =>
    simp only [List.nil_append, sendLoop, hz, List.append_nil]
  | cons p g1rest ih =>
    obtain ⟨pz, prs⟩ := p
    have hp : sendZoneUpdate net pz prs = Except.ok () := h1 (pz, prs) (by simp)
    have hrest : ∀ q ∈ g1rest, sendZoneUpdate net q.1 q.2 = Except.ok () :=
      fun q hq => h1 q (by simp [hq])
    simp only [List.cons_append, sendLoop, hp, List.append_eq]
    rw [ih (sent ++ [(pz, prs)]) hrest]
    simp

/-- C1 (amended): in a non-dry-run cycle whose records group into several
zone batches, a transport failure or non-success response while sending
one zone's transaction ABORTS the rest of the cycle: provided every
earlier batch succeeded, UpdateRecords returns that zone's error, the
failing batch is the last one for which an exchange was attempted, and
the batches after it are not sent. -/
theorem updateRecords_abort_on_zone_error (c : Client) (net : NetOracle)
    (records : List DNSRecord) (k : TSIGKey) (g1 g2 : List (Str × List DNSRecord))
    (z : Str) (rs : List DNSRecord) (e : String)
    (hk : createTSIGKey c = Except.ok k)
    (hg : groupRecordsByZone c records = g1 ++ (z, rs) :: g2)
    (h1 : ∀ p ∈ g1, sendZoneUpdate net p.1 p.2 = Except.ok ())
    (hz : sendZoneUpdate net z rs = Except.error e) :
    updateRecords c net records false = ⟨Except.error e, g1 ++ [(z, rs)]⟩ := by
  cases records with
  | nil =>
    have : ([] : List (Str × List DNSRecord)) = g1 ++ (z, rs) :: g2 := hg
    exact absurd this.symm (by simp)
  | cons r rest =>
    simp only [updateRecords, Bool.false_eq_true, if_false, List.length_cons,
      Nat.succ_ne_zero, hk, hg]
    have := sendLoop_stops_at_error net g1 z rs g2 e [] h1 hz
    simpa using this

/-- Witness for C1 (amended): concrete two-batch cycle in which the first
zone's exchange fails with a transport error. -/
theorem updateRecords_abort_on_zone_error_witness :
    updateRecords egClient egNetFail [egRecordA, egRecordPtr] false =
      ⟨Except.error "network unreachable", [("example.com".data, [egRecordA])]⟩ :=
  updateRecords_abort_on_zone_error egClient egNetFail [egRecordA, egRecordPtr]
    ⟨"test-key".data, "hmac-sha256.".data⟩
    [] [("64.100.in-addr.arpa".data, [egRecordPtr])]
    "example.com".data [egRecordA] "network unreachable"
    rfl (by decide) (by intro p hp; simp at hp) rfl

/-- Counterexample to C1 as stated: a cycle with two zone batches and a
network on which every exchange fails. The grouping builds both batches,
but after the first zone's transport error the second zone's batch is
never sent — the outcome's sent list contains only the first batch, so a
zone failure does abort the processing of the other zones. -/
theorem updateRecords_abort_counterexample :
    groupRecordsByZone egClient [egRecordA, egRecordPtr] =
      [("example.com".data, [egRecordA]),
        ("64.100.in-addr.arpa".data, [egRecordPtr])] ∧
    (updateRecords egClient egNetFail [egRecordA, egRecordPtr] false).sent =
      [("example.com".data, [egRecordA])] ∧
    (updateRecords egClient egNetFail [egRecordA, egRecordPtr] false).result =
      Except.error "network unreachable" := by
  refine ⟨by decide, by decide, rfl⟩

/-! Claim C4. -/

/-- Helper for C4: inserting a record whose resolved zone is the batch key
preserves the grouping invariant. -/
theorem insertGrouped_sound (c : Client) (m : List (Str × List DNSRecord))
    (z0 : Str) (r0 : DNSRecord)
    (hm : ∀ z rs, (z, rs) ∈ m → z ≠ [] ∧ ∀ r ∈ rs, zoneForRecord c r = z)
    (hz0 : zoneForRecord c r0 = z0) (hz0ne : z0 ≠ []) :
    ∀ z rs, (z, rs) ∈ insertGrouped m z0 r0 →
      z ≠ [] ∧ ∀ r ∈ rs, zoneForRecord c r = z := by
  induction m with
  | nil =>
    intro z rs hmem
    simp only [insertGrouped, List.mem_singleton, Prod.mk.injEq] at hmem
    obtain ⟨hz, hrs⟩ := hmem
    subst hz
    subst hrs
    refine ⟨hz0ne, ?_⟩
    intro r hr
    simp only [List.mem_singleton] at hr
    subst hr
    exact hz0
  | cons p rest ih =>
    obtain ⟨z1, rs1⟩ := p
    have hhead := hm z1 rs1 (by simp)
    have hrest : ∀ z rs, (z, rs) ∈ rest → z ≠ [] ∧ ∀ r ∈ rs, zoneForRecord c r = z :=
      fun z rs h => hm z rs (by simp [h])
    intro z rs hmem
    by_cases h : z1 = z0
    · rw [insertGrouped, if_pos h] at hmem
      rcases List.mem_cons.mp hmem with heq | hmem2
      · obtain ⟨hz, hrs⟩ := Prod.mk.injEq .. ▸ heq
        subst hz
        subst hrs
        refine ⟨hhead.1, ?_⟩
        intro r hr
        rcases List.mem_append.mp hr with hr1 | hr1
        · exact hhead.2 r hr1
        · simp only [List.mem_singleton] at hr1
          subst hr1
          rw [hz0, h]
      · exact hrest z rs hmem2
    · rw [insertGrouped, if_neg h] at hmem
      rcases List.mem_cons.mp hmem with heq | hmem2
      · obtain ⟨hz, hrs⟩ := Prod.mk.injEq .. ▸ heq
        subst hz
        subst hrs
        exact hhead
      · exact ih hrest z rs hmem2

/-- Helper for C4: the grouping fold preserves the invariant from any
starting accumulator. -/
theorem groupFold_sound (c : Client) (records : List DNSRecord) :
    ∀ m, (∀ z rs, (z, rs) ∈ m → z ≠ [] ∧ ∀ r ∈ rs, zoneForRecord c r = z) →
    ∀ z rs,
      (z, rs) ∈ records.foldl
        (fun m record =>
          let zr := zoneForRecord c record
          if zr = [] then m else insertGrouped m zr record) m →
      z ≠ [] ∧ ∀ r ∈ rs, zoneForRecord c r = z := by
  induction records with
  | nil =>
    intro m hm z rs hmem
    rw [List.foldl_nil] at hmem
    exact hm z rs hmem
  | cons r0 rest ih =>
    intro m hm z rs hmem
    rw [List.foldl_cons] at hmem
    by_cases hz0 : zoneForRecord c r0 = []
    · refine ih _ ?_ z rs (by simpa [hz0] using hmem)
      exact hm
    · refine ih _ ?_ z rs (by simpa [hz0] using hmem)
      exact insertGrouped_sound c m (zoneForRecord c r0) r0 hm rfl hz0

/-- C4: every record placed in the batch keyed by zone z resolves to
exactly z: it is a PTR record whose zone extracted from its owner name is
z, or a forward record with z the static forward zone; no batch is keyed
by the empty (unresolved) zone, so records whose zone cannot be resolved
appear in no batch and no batch mixes records of different zones. -/
theorem zoneBatch_invariant (c : Client) (records : List DNSRecord)
    (z : Str) (rs : List DNSRecord) (r : DNSRecord)
    (hzrs : (z, rs) ∈ groupRecordsByZone c records) (hr : r ∈ rs) :
    zoneForRecord c r = z ∧ z ≠ [] ∧
    ((r.Typ = "PTR".data ∧
        (extractIPv4ZoneFromPTRName c r.Name = z ∨
          extractIPv6ZoneFromPTRName c r.Name = z)) ∨
      (r.Typ ≠ "PTR".data ∧ z = c.zone)) := by
  have h := groupFold_sound c records [] (by intro z1 rs1 h1; simp at h1) z rs hzrs
  have hz := h.2 r hr
  refine ⟨hz, h.1, ?_⟩
  by_cases hp : r.Typ = "PTR".data
  · refine Or.inl ⟨hp, ?_⟩
    rw [zoneForRecord, if_pos hp] at hz
    by_cases h4 : containsSub r.Name ".in-addr.arpa.".data = true
    · rw [if_pos h4] at hz
      exact Or.inl hz
    · rw [if_neg h4] at hz
      by_cases h6 : containsSub r.Name ".ip6.arpa.".data = true
      · rw [if_pos h6] at hz
        exact Or.inr hz
      · rw [if_neg h6] at hz
        exact absurd hz.symm h.1
  · refine Or.inr ⟨hp, ?_⟩
    rw [zoneForRecord, if_neg hp] at hz
    exact hz.symm

/-- Witness for C4: the forward record of the concrete two-batch cycle. -/
theorem zoneBatch_invariant_witness :
    zoneForRecord egClient egRecordA = "example.com".data ∧
    "example.com".data ≠ ([] : Str) ∧
    ((egRecordA.Typ = "PTR".data ∧
        (extractIPv4ZoneFromPTRName egClient egRecordA.Name = "example.com".data ∨
          extractIPv6ZoneFromPTRName egClient egRecordA.Name = "example.com".data)) ∨
      (egRecordA.Typ ≠ "PTR".data ∧ "example.com".data = egClient.zone)) :=
  zoneBatch_invariant egClient [egRecordA, egRecordPtr] "example.com".data
    [egRecordA] egRecordA (by decide) (by decide)

/-! Claim C2. -/

/-- Helper: the last element of an append with a non-empty right part. -/
theorem getLast?_append_right (a b : Str) (hb : b ≠ []) :
    (a ++ b).getLast? = b.getLast? := by
  rw [List.getLast?_append, List.getLast?_eq_getLast b hb]
  rfl

/-- Helper: a decimal rendering never ends in a dot. -/
theorem natToDigits_getLast_ne_dot (n : Nat) : (natToDigits n).getLast? ≠ some '.' := by
  rw [List.getLast?_eq_getLast _ (natToDigits_ne_nil n)]
  intro h
  have hmem := List.getLast_mem (natToDigits_ne_nil n)
  rw [Option.some.injEq] at h
  rw [h] at hmem
  exact natToDigits_no_dot n hmem

/-- C2: for every valid IPv4 address and boundary size in {8,16,24}, with
PTR enabled and the classifier configured for that boundary, re-deriving
the zone from the address's full reversed record name (four reversed
octets suffixed ".in-addr.arpa.") gives exactly the zone computed directly
from the address at that boundary size. -/
theorem ptrZone_roundtrip (c : Client) (cfg : PTRConfig) (o0 o1 o2 o3 : Nat) (sz : Int)
    (hc : c.ptrConfig = some cfg) (hen : cfg.Enabled = true)
    (hsz : sz = 8 ∨ sz = 16 ∨ sz = 24) (hcs : cfg.IPv4SubnetSize = sz)
    (_h0 : o0 < 256) (_h1 : o1 < 256) (_h2 : o2 < 256) (_h3 : o3 < 256) :
    generateIPv4PTRZone (some (ParsedIP.v4 o0 o1 o2 o3)) sz =
      Except.ok (extractIPv4ZoneFromPTRName c (ipv4ReversePtrName o0 o1 o2 o3)) := by
  have hdot : ".".data = ['.'] := rfl
  have hX : ipv4ReversePtrName o0 o1 o2 o3 =
      (natToDigits o3 ++ '.' :: (natToDigits o2 ++ '.' :: (natToDigits o1 ++ '.' ::
        natToDigits o0))) ++ ".in-addr.arpa.".data := by
    simp [ipv4ReversePtrName, hdot, List.append_assoc]
  have h1 : trimSuffix (ipv4ReversePtrName o0 o1 o2 o3) ".in-addr.arpa.".data =
      natToDigits o3 ++ '.' :: (natToDigits o2 ++ '.' :: (natToDigits o1 ++ '.' ::
        natToDigits o0)) := by
    rw [hX, trimSuffix_append]
  have hsplit : natToDigits o3 ++ '.' :: (natToDigits o2 ++ '.' :: (natToDigits o1 ++ '.' ::
      natToDigits o0)) =
      (natToDigits o3 ++ '.' :: (natToDigits o2 ++ '.' :: (natToDigits o1 ++ ['.']))) ++
        natToDigits o0 := by
    simp
  have hlast : (natToDigits o3 ++ '.' :: (natToDigits o2 ++ '.' :: (natToDigits o1 ++ '.' ::
      natToDigits o0))).getLast? ≠ some '.' := by
    rw [hsplit, getLast?_append_right _ _ (natToDigits_ne_nil o0)]
    exact natToDigits_getLast_ne_dot o0
  have h2 : trimSuffix (natToDigits o3 ++ '.' :: (natToDigits o2 ++ '.' ::
      (natToDigits o1 ++ '.' :: natToDigits o0))) ".".data =
      natToDigits o3 ++ '.' :: (natToDigits o2 ++ '.' :: (natToDigits o1 ++ '.' ::
        natToDigits o0)) := by
    rw [hdot]
    exact trimSuffix_single_of_getLast?_ne _ '.' hlast
  have h3 : splitDots (natToDigits o3 ++ '.' :: (natToDigits o2 ++ '.' ::
      (natToDigits o1 ++ '.' :: natToDigits o0))) =
      [natToDigits o3, natToDigits o2, natToDigits o1, natToDigits o0] := by
    rw [splitDots_dot_append _ _ (natToDigits_no_dot o3),
      splitDots_dot_append _ _ (natToDigits_no_dot o2),
      splitDots_dot_append _ _ (natToDigits_no_dot o1),
      splitDots_no_dot _ (natToDigits_no_dot o0)]
  have hen2 : ¬(cfg.Enabled = false) := by simp [hen]
  rcases hsz with h | h | h <;> subst h <;>
    simp only [extractIPv4ZoneFromPTRName, hc, hen2, if_false, h1, h2, h3] <;>
    simp [generateIPv4PTRZone, hcs]

/-- Witness for C2 at 100.64.1.1 with boundary size 16 under egCfg. -/
theorem ptrZone_roundtrip_witness :
    generateIPv4PTRZone (some (ParsedIP.v4 100 64 1 1)) 16 =
      Except.ok (extractIPv4ZoneFromPTRName egClient (ipv4ReversePtrName 100 64 1 1)) :=
  ptrZone_roundtrip egClient egCfg 100 64 1 1 16 rfl rfl (Or.inr (Or.inl rfl)) rfl
    (by norm_num) (by norm_num) (by norm_num) (by norm_num)

/-! Claim C6. -/

/-- Helper: the nibble expansion emits two labels per byte. -/
theorem flatMap_two_length (l : List Nat) :
    (l.flatMap (fun b => [[hexNibble (b % 16)], [hexNibble (b / 16 % 16)]])).length =
      2 * l.length := by
  induction l with
  | nil => rfl
  | cons b bs ih =>
    rw [List.flatMap_cons, List.length_append, ih]
    simp only [List.length_cons, List.length_nil, List.length_singleton]
    omega

/-- Helper: an address of n bytes expands to 2n nibble labels. -/
theorem ipv6Nibbles_length (bytes : List Nat) :
    (ipv6Nibbles bytes).length = 2 * bytes.length := by
  rw [ipv6Nibbles, flatMap_two_length, List.length_reverse]

/-- Helper: every nibble label is a single hex digit, never a dot. -/
theorem ipv6Nibbles_no_dot (bytes : List Nat) : ∀ p ∈ ipv6Nibbles bytes, '.' ∉ p := by
  intro p hp
  rw [ipv6Nibbles] at hp
  simp only [List.mem_flatMap] at hp
  obtain ⟨b, _, hb⟩ := hp
  have hlow : b % 16 < 16 := Nat.mod_lt _ (by norm_num)
  have hhigh : b / 16 % 16 < 16 := Nat.mod_lt _ (by norm_num)
  simp only [List.mem_cons, List.mem_singleton, List.not_mem_nil, or_false] at hb
  rcases hb with h | h <;> subst h <;> intro hm <;>
    simp only [List.mem_singleton] at hm
  · exact hexNibble_ne_dot (b % 16) hlow hm.symm
  · exact hexNibble_ne_dot (b / 16 % 16) hhigh hm.symm

/-- C6: for every valid IPv6 address (16 bytes), the reverse zone at
boundary size 32, 48 or 64 keeps only the last 8, 12 or 16 of the 32
reversed nibble labels, suffixed ".ip6.arpa"; any other boundary size
errors, and a non-IPv6 input (failed parse, or an address whose To4() is
non-nil) errors; in particular 2001:db8::1 maps to
8.b.d.0.1.0.0.2.ip6.arpa at size 32 and
0.0.0.0.0.0.0.0.8.b.d.0.1.0.0.2.ip6.arpa at size 64. -/
theorem generateIPv6PTRZone_spec (bytes : List Nat) (hlen : bytes.length = 16)
    (_hb : ∀ b ∈ bytes, b < 256) :
    (ipv6Nibbles bytes).length = 32 ∧
    generateIPv6PTRZone (some (ParsedIP.v6 bytes)) 32 =
      Except.ok (joinDots ((ipv6Nibbles bytes).drop 24) ++ ".ip6.arpa".data) ∧
    generateIPv6PTRZone (some (ParsedIP.v6 bytes)) 48 =
      Except.ok (joinDots ((ipv6Nibbles bytes).drop 20) ++ ".ip6.arpa".data) ∧
    generateIPv6PTRZone (some (ParsedIP.v6 bytes)) 64 =
      Except.ok (joinDots ((ipv6Nibbles bytes).drop 16) ++ ".ip6.arpa".data) ∧
    (∀ sz : Int, sz ≠ 32 → sz ≠ 48 → sz ≠ 64 →
      generateIPv6PTRZone (some (ParsedIP.v6 bytes)) sz =
        Except.error "unsupported IPv6 subnet size") ∧
    (∀ (o0 o1 o2 o3 : Nat) (sz : Int),
      generateIPv6PTRZone (some (ParsedIP.v4 o0 o1 o2 o3)) sz =
        Except.error "invalid IPv6 address") ∧
    (∀ sz : Int, generateIPv6PTRZone none sz = Except.error "invalid IPv6 address") ∧
    generateIPv6PTRZone
        (some (ParsedIP.v6 [32, 1, 13, 184, 0, 0, 0, 0, 0, 0, 0, 0, 0, 0, 0, 1])) 32 =
      Except.ok "8.b.d.0.1.0.0.2.ip6.arpa".data ∧
    generateIPv6PTRZone
        (some (ParsedIP.v6 [32, 1, 13, 184, 0, 0, 0, 0, 0, 0, 0, 0, 0, 0, 0, 1])) 64 =
      Except.ok "0.0.0.0.0.0.0.0.8.b.d.0.1.0.0.2.ip6.arpa".data := by
  have hlen2 : (ipv6Nibbles bytes).length = 32 := by
    rw [ipv6Nibbles_length, hlen]
  have hnodot := ipv6Nibbles_no_dot bytes
  have hnn : ipv6Nibbles bytes ≠ [] := by
    intro h
    rw [h] at hlen2
    simp at hlen2
  have hsj : splitDots (joinDots (ipv6Nibbles bytes)) = ipv6Nibbles bytes :=
    splitDots_joinDots _ hnn hnodot
  have hrev : ipv6ToReverseDNS (some (ParsedIP.v6 bytes)) =
      joinDots (ipv6Nibbles bytes) ++ ".ip6.arpa.".data := rfl
  have hrevne : joinDots (ipv6Nibbles bytes) ++ ".ip6.arpa.".data ≠ [] := by
    intro h
    have hl := congrArg List.length h
    have h10 : (".ip6.arpa.".data : Str).length = 10 := rfl
    rw [List.length_append, h10] at hl
    simp at hl
  have htrim : trimSuffix (joinDots (ipv6Nibbles bytes) ++ ".ip6.arpa.".data)
      ".ip6.arpa.".data = joinDots (ipv6Nibbles bytes) := trimSuffix_append _ _
  refine ⟨hlen2, ?_, ?_, ?_, ?_, fun o0 o1 o2 o3 sz => rfl, fun sz => rfl, rfl, rfl⟩
  · simp [generateIPv6PTRZone, hrev, hrevne, htrim, hsj, hlen2]
  · simp [generateIPv6PTRZone, hrev, hrevne, htrim, hsj, hlen2]
  · simp [generateIPv6PTRZone, hrev, hrevne, htrim, hsj, hlen2]
  · intro sz h32 h48 h64
    simp [generateIPv6PTRZone, hrev, hrevne, h32, h48, h64]

/-- Witness for C6 on the 16-byte form of 2001:db8::1. -/
theorem generateIPv6PTRZone_spec_witness :
    (ipv6Nibbles [32, 1, 13, 184, 0, 0, 0, 0, 0, 0, 0, 0, 0, 0, 0, 1]).length = 32 :=
  (generateIPv6PTRZone_spec [32, 1, 13, 184, 0, 0, 0, 0, 0, 0, 0, 0, 0, 0, 0, 1]
    (by norm_num) (by decide)).1

/-! Claim C7. -/

/-- Example PTR configuration with reverse records disabled. -/
def egCfgOff : PTRConfig := ⟨false, [], [], 16, false, [], [], 64⟩

/-- Example client for the forward zone example.com with PTR disabled. -/
def egClientOff : Client :=
  ⟨"dns.example.com".data, 53, "example.com".data, "test-key".data,
    "test-secret".data, "hmac-sha256".data, 300, some egCfgOff⟩

/-- Example online endpoint: empty display name, identifier m1, IPv4
100.64.1.1, no IPv6 address. -/
def egMachine : Machine := ⟨"m1".data, [], "100.64.1.1".data, [], true⟩

/-- C7: synthesizing records for a single online endpoint with empty
display name, identifier m1, IPv4 100.64.1.1, no IPv6 address, reverse
records disabled and TTL 300 produces exactly one forward A record with
owner m1 (the sanitized identifier fallback), value 100.64.1.1 and TTL
300 — and nothing else, for any parse and subnet oracles. -/
theorem machinesToRecords_single_forward (parse : Str → Option ParsedIP)
    (inSubnet : Str → Str → Bool) :
    allRecordsFor egClientOff egCfgOff parse inSubnet 300 [egMachine] =
      [⟨"m1".data, "100.64.1.1".data, 300, "A".data⟩] := rfl

/-! Claim C10. -/

/-- Character class of the intermediate sanitized string: letters of both
cases, digits and hyphens. -/
def isAlphaNumDash (ch : Char) : Bool :=
  ('a' ≤ ch && ch ≤ 'z') || ('A' ≤ ch && ch ≤ 'Z') || ('0' ≤ ch && ch ≤ '9') || ch = '-'

/-- Character class of the final sanitized output: lowercase letters,
digits and hyphens. -/
def isLowerAlphaNumDash (ch : Char) : Bool :=
  ('a' ≤ ch && ch ≤ 'z') || ('0' ≤ ch && ch ≤ '9') || ch = '-'

/-- No two adjacent hyphens anywhere in the string. -/
def noDoubleHyphen : Str → Bool
  | [] => true
  | [_] => true
  | a :: b :: t => !(a = '-' && b = '-') && noDoubleHyphen (b :: t)

/-- Neither the first nor the last character is a hyphen (vacuously true
for the empty string since the defaults are not hyphens). -/
def noEdgeHyphen (r : Str) : Bool :=
  !(r.headD 'a' == '-') && !(r.getLastD 'a' == '-')

theorem collapseHyphens_cons₂ (x c2 : Char) (cs : Str) :
    collapseHyphens (x :: c2 :: cs) =
      if x = '-' && c2 = '-' then collapseHyphens (c2 :: cs)
      else x :: collapseHyphens (c2 :: cs) := rfl

theorem noDoubleHyphen_cons₂ (a b : Char) (t : Str) :
    noDoubleHyphen (a :: b :: t) =
      (!(a = '-' && b = '-') && noDoubleHyphen (b :: t)) := rfl

/-- The first label of a split never contains a dot. -/
theorem splitDots_headD_no_dot (s : Str) : '.' ∉ (splitDots s).headD [] := by
  cases h : splitDots s with
  | nil => exact absurd h (splitDots_ne_nil s)
  | cons p ps =>
    have hm := splitDots_mem_no_dot s p (by rw [h]; exact List.mem_cons_self p ps)
    simpa using hm

/-- After the first replacement, a dot-free input yields only letters,
digits and hyphens. -/
theorem replaceInvalid_class (s : Str) (hs : '.' ∉ s) :
    ∀ ch ∈ replaceInvalid s, isAlphaNumDash ch = true := by
  intro ch hch
  rw [replaceInvalid] at hch
  simp only [List.mem_map] at hch
  obtain ⟨a, ha, hfa⟩ := hch
  subst hfa
  by_cases hv : isAlphaNumDotDash a = true
  · rw [if_pos hv]
    have hadot : a ≠ '.' := fun hd => hs (hd ▸ ha)
    simp only [isAlphaNumDotDash, Bool.or_eq_true, Bool.and_eq_true,
      decide_eq_true_eq] at hv
    simp only [isAlphaNumDash, Bool.or_eq_true, Bool.and_eq_true, decide_eq_true_eq]
    tauto
  · rw [if_neg hv]
    decide

/-- Collapsing hyphen runs only keeps characters of the input. -/
theorem collapseHyphens_subset (s : Str) : ∀ ch ∈ collapseHyphens s, ch ∈ s := by
  induction s with
  | nil => intro ch h; exact absurd h (by simp [collapseHyphens])
  | cons c cs ih =>
    cases cs with
    | nil =>
      intro ch h
      have h1 : collapseHyphens [c] = [c] := rfl
      rw [h1] at h
      exact h
    | cons c2 cs2 =>
      intro ch h
      rw [collapseHyphens_cons₂] at h
      by_cases hb : (c = '-' && c2 = '-') = true
      · rw [if_pos hb] at h
        exact List.mem_cons_of_mem c (ih ch h)
      · rw [if_neg hb] at h
        rcases List.mem_cons.mp h with h1 | h1
        · simp [h1]
        · exact List.mem_cons_of_mem c (ih ch h1)

/-- Collapsing preserves the first character. -/
theorem collapseHyphens_head (xs : Str) :
    ∀ x : Char, ∃ t, collapseHyphens (x :: xs) = x :: t := by
  induction xs with
  | nil => intro x; exact ⟨[], rfl⟩
  | cons c2 cs ih =>
    intro x
    by_cases h : (x = '-' && c2 = '-') = true
    · obtain ⟨hx, hc2⟩ : x = '-' ∧ c2 = '-' := by
        simpa [Bool.and_eq_true, decide_eq_true_eq] using h
      subst hx
      subst hc2
      obtain ⟨t, ht⟩ := ih '-'
      exact ⟨t, by rw [collapseHyphens_cons₂, if_pos (by decide), ht]⟩
    · exact ⟨collapseHyphens (c2 :: cs), by rw [collapseHyphens_cons₂, if_neg h]⟩

/-- The collapsed string has no adjacent hyphens. -/
theorem collapseHyphens_noDouble (s : Str) :
    noDoubleHyphen (collapseHyphens s) = true := by
  induction s with
  | nil => rfl
  | cons c cs ih =>
    cases cs with
    | nil => rfl
    | cons c2 cs2 =>
      rw [collapseHyphens_cons₂]
      by_cases h : (c = '-' && c2 = '-') = true
      · rw [if_pos h]
        exact ih
      · rw [if_neg h]
        obtain ⟨t, ht⟩ := collapseHyphens_head cs2 c2
        rw [ht]
        have hnd : noDoubleHyphen (c2 :: t) = true := by rw [← ht]; exact ih
        rw [noDoubleHyphen_cons₂, hnd]
        have hf : (c = '-' && c2 = '-') = false := by
          rwa [Bool.not_eq_true] at h
        rw [hf]
        rfl

/-- A string without adjacent hyphens is unchanged by collapsing. -/
theorem collapseHyphens_of_noDouble (s : Str) (h : noDoubleHyphen s = true) :
    collapseHyphens s = s := by
  induction s with
  | nil => rfl
  | cons c cs ih =>
    cases cs with
    | nil => rfl
    | cons c2 cs2 =>
      rw [noDoubleHyphen_cons₂, Bool.and_eq_true] at h
      have hf : ¬((c = '-' && c2 = '-') = true) := by
        intro hb
        have h1 := h.1
        rw [hb] at h1
        simp at h1
      rw [collapseHyphens_cons₂, if_neg hf, ih h.2]

theorem noDoubleHyphen_tail (x : Char) (t : Str) (h : noDoubleHyphen (x :: t) = true) :
    noDoubleHyphen t = true := by
  cases t with
  | nil => rfl
  | cons y ys =>
    rw [noDoubleHyphen_cons₂, Bool.and_eq_true] at h
    exact h.2

theorem noDoubleHyphen_append_right (a b : Str) (h : noDoubleHyphen (a ++ b) = true) :
    noDoubleHyphen b = true := by
  induction a with
  | nil => exact h
  | cons x xs ih => exact ih (noDoubleHyphen_tail x (xs ++ b) h)

theorem noDoubleHyphen_append_left (a b : Str) (h : noDoubleHyphen (a ++ b) = true) :
    noDoubleHyphen a = true := by
  induction a with
  | nil => rfl
  | cons x xs ih =>
    cases xs with
    | nil => rfl
    | cons y ys =>
      rw [List.cons_append, List.cons_append, noDoubleHyphen_cons₂,
        Bool.and_eq_true] at h
      rw [noDoubleHyphen_cons₂, Bool.and_eq_true]
      exact ⟨h.1, ih h.2⟩

theorem trimHyphensDots_eq (s : Str) :
    trimHyphensDots s = List.rdropWhile isTrimChar (s.dropWhile isTrimChar) := rfl

/-- Trimming only keeps characters of the input. -/
theorem trimHyphensDots_subset (s : Str) : ∀ ch ∈ trimHyphensDots s, ch ∈ s := by
  intro ch h
  rw [trimHyphensDots_eq] at h
  have h1 : ch ∈ s.dropWhile isTrimChar :=
    List.Sublist.mem h (List.IsPrefix.sublist (List.rdropWhile_prefix _ _))
  exact List.Sublist.mem h1 (List.dropWhile_sublist _)

/-- Trimming preserves the absence of adjacent hyphens. -/
theorem trimHyphensDots_noDouble (s : Str) (h : noDoubleHyphen s = true) :
    noDoubleHyphen (trimHyphensDots s) = true := by
  rw [trimHyphensDots_eq]
  obtain ⟨a, ha⟩ := List.dropWhile_suffix (l := s) isTrimChar
  have h1 : noDoubleHyphen (s.dropWhile isTrimChar) = true :=
    noDoubleHyphen_append_right a _ (by rw [ha]; exact h)
  obtain ⟨b, hb⟩ := List.rdropWhile_prefix isTrimChar (s.dropWhile isTrimChar)
  exact noDoubleHyphen_append_left _ b (by rw [hb]; exact h1)

/-- A non-empty trimmed string does not start with a trim character. -/
theorem trimHyphensDots_head (s : Str) :
    ∀ x, (trimHyphensDots s).head? = some x → isTrimChar x = false := by
  intro x hx
  rw [trimHyphensDots_eq] at hx
  have hne : List.rdropWhile isTrimChar (s.dropWhile isTrimChar) ≠ [] := by
    intro h0
    rw [h0] at hx
    simp at hx
  obtain ⟨b, hb⟩ := List.rdropWhile_prefix isTrimChar (s.dropWhile isTrimChar)
  have hyne : s.dropWhile isTrimChar ≠ [] := by
    intro h0
    rw [h0] at hne
    simp [List.rdropWhile] at hne
  have hhead : (s.dropWhile isTrimChar).head? = some x := by
    rw [← hb]
    cases hr : List.rdropWhile isTrimChar (s.dropWhile isTrimChar) with
    | nil => exact absurd hr hne
    | cons r rs =>
      rw [hr] at hx
      simp only [List.head?_cons, Option.some.injEq] at hx
      subst hx
      simp
  have hw := List.head_dropWhile_not isTrimChar s hyne
  rw [List.head?_eq_head hyne, Option.some.injEq] at hhead
  rw [← hhead]
  exact hw

/-- A non-empty trimmed string does not end with a trim character. -/
theorem trimHyphensDots_last (s : Str) :
    ∀ x, (trimHyphensDots s).getLast? = some x → isTrimChar x = false := by
  intro x hx
  rw [trimHyphensDots_eq] at hx
  have hne : List.rdropWhile isTrimChar (s.dropWhile isTrimChar) ≠ [] := by
    intro h0
    rw [h0] at hx
    simp at hx
  have hw := List.rdropWhile_last_not isTrimChar (s.dropWhile isTrimChar) hne
  rw [List.getLast?_eq_getLast _ hne, Option.some.injEq] at hx
  rw [← hx]
  exact Bool.not_eq_true _ ▸ (by simpa using hw)

/-- ASCII lower-casing maps the intermediate class into the final class. -/
theorem lowerChar_class (a : Char) (h : isAlphaNumDash a = true) :
    isLowerAlphaNumDash (lowerChar a) = true := by
  simp only [isAlphaNumDash, Bool.or_eq_true, Bool.and_eq_true, decide_eq_true_eq] at h
  rw [lowerChar]
  by_cases hu : ('A' ≤ a ∧ a ≤ 'Z')
  · rw [if_pos (by simp only [Bool.and_eq_true, decide_eq_true_eq]; exact hu)]
    have h65 : 65 ≤ a.toNat := hu.1
    have h90 : a.toNat ≤ 90 := hu.2
    have hv : (Char.ofNat (a.toNat + 32)).toNat = a.toNat + 32 :=
      charOfNat_toNat _ (by omega)
    simp only [isLowerAlphaNumDash, Bool.or_eq_true, Bool.and_eq_true, decide_eq_true_eq]
    have hrange : 97 ≤ (Char.ofNat (a.toNat + 32)).toNat ∧
        (Char.ofNat (a.toNat + 32)).toNat ≤ 122 := by
      rw [hv]
      omega
    exact Or.inl (Or.inl ⟨hrange.1, hrange.2⟩)
  · rw [if_neg (by simp only [Bool.and_eq_true, decide_eq_true_eq]; exact hu)]
    simp only [isLowerAlphaNumDash, Bool.or_eq_true, Bool.and_eq_true, decide_eq_true_eq]
    rcases h with ((h | h) | h) | h
    · exact Or.inl (Or.inl h)
    · exact absurd h hu
    · exact Or.inl (Or.inr h)
    · exact Or.inr h

/-- ASCII lower-casing produces a hyphen only from a hyphen. -/
theorem lowerChar_dash_iff (a : Char) : lowerChar a = '-' ↔ a = '-' := by
  constructor
  · intro hc
    rw [lowerChar] at hc
    by_cases hu : ('A' ≤ a && a ≤ 'Z') = true
    · rw [if_pos hu] at hc
      simp only [Bool.and_eq_true, decide_eq_true_eq] at hu
      have h65 : 65 ≤ a.toNat := hu.1
      have h90 : a.toNat ≤ 90 := hu.2
      have hNat := congrArg Char.toNat hc
      rw [charOfNat_toNat _ (by omega)] at hNat
      have h45 : ('-' : Char).toNat = 45 := rfl
      rw [h45] at hNat
      omega
    · rwa [if_neg hu] at hc
  · intro h
    subst h
    rfl

/-- Lower-casing fixes a string already in the final class. -/
theorem toLowerAscii_of_lower (s : Str)
    (h : ∀ ch ∈ s, isLowerAlphaNumDash ch = true) : toLowerAscii s = s := by
  rw [toLowerAscii]
  have hfix : ∀ ch ∈ s, lowerChar ch = ch := by
    intro ch hch
    have hc := h ch hch
    simp only [isLowerAlphaNumDash, Bool.or_eq_true, Bool.and_eq_true,
      decide_eq_true_eq] at hc
    rw [lowerChar, if_neg ?_]
    simp only [Bool.and_eq_true, decide_eq_true_eq, not_and]
    intro h65 h90
    have h65n : 65 ≤ ch.toNat := h65
    have h90n : ch.toNat ≤ 90 := h90
    rcases hc with (h1 | h1) | h1
    · have ha1 : 97 ≤ ch.toNat := h1.1
      omega
    · have ha1 : ch.toNat ≤ 57 := h1.2
      omega
    · have ha1 : ch.toNat = 45 := by subst h1; rfl
      omega
  calc s.map lowerChar = s.map id := List.map_congr_left hfix
    _ = s := List.map_id s

/-- Lower-casing preserves the absence of adjacent hyphens. -/
theorem toLowerAscii_noDouble (s : Str) (h : noDoubleHyphen s = true) :
    noDoubleHyphen (toLowerAscii s) = true := by
  rw [toLowerAscii]
  induction s with
  | nil => rfl
  | cons a t ih =>
    cases t with
    | nil => rfl
    | cons b t2 =>
      rw [noDoubleHyphen_cons₂, Bool.and_eq_true] at h
      rw [List.map_cons, List.map_cons, noDoubleHyphen_cons₂, Bool.and_eq_true]
      refine ⟨?_, by rw [← List.map_cons]; exact ih h.2⟩
      have h1 := h.1
      simp only [Bool.not_eq_true', Bool.and_eq_false_iff, decide_eq_false_iff_not] at h1 ⊢
      rcases h1 with h1 | h1
      · exact Or.inl (fun hc => h1 ((lowerChar_dash_iff a).mp hc))
      · exact Or.inr (fun hc => h1 ((lowerChar_dash_iff b).mp hc))

/-- Well-formedness of a sanitized owner name: non-empty, only lowercase
letters, digits and hyphens, no adjacent hyphens, and no hyphen at either
edge. -/
def SanitizedWF (r : Str) : Prop :=
  r ≠ [] ∧ (∀ ch ∈ r, isLowerAlphaNumDash ch = true) ∧ noDoubleHyphen r = true ∧
    (∀ x, r.head? = some x → x ≠ '-') ∧ (∀ x, r.getLast? = some x → x ≠ '-')

/-- The sanitizer always produces a well-formed owner name. -/
theorem sanitizeDNSName_wf (s : Str) : SanitizedWF (sanitizeDNSName s) := by
  have hs : sanitizeDNSName s =
      toLowerAscii
        (if trimHyphensDots (collapseHyphens (replaceInvalid ((splitDots s).headD []))) = []
          then "machine".data
          else trimHyphensDots (collapseHyphens (replaceInvalid ((splitDots s).headD [])))) :=
    rfl
  have hb := replaceInvalid_class _ (splitDots_headD_no_dot s)
  have hc_class : ∀ ch ∈ collapseHyphens (replaceInvalid ((splitDots s).headD [])),
      isAlphaNumDash ch = true :=
    fun ch h => hb ch (collapseHyphens_subset _ ch h)
  have ht_class : ∀ ch ∈ trimHyphensDots (collapseHyphens (replaceInvalid
      ((splitDots s).headD []))), isAlphaNumDash ch = true :=
    fun ch h => hc_class ch (trimHyphensDots_subset _ ch h)
  have ht_nd := trimHyphensDots_noDouble _ (collapseHyphens_noDouble
    (replaceInvalid ((splitDots s).headD [])))
  by_cases hemp : trimHyphensDots (collapseHyphens (replaceInvalid
      ((splitDots s).headD []))) = []
  · rw [hs, if_pos hemp]
    refine ⟨by decide, ?_, by decide, ?_, ?_⟩
    · intro ch hch
      have hm : toLowerAscii "machine".data = ['m', 'a', 'c', 'h', 'i', 'n', 'e'] := rfl
      rw [hm] at hch
      have hall : ∀ c ∈ (['m', 'a', 'c', 'h', 'i', 'n', 'e'] : Str),
          isLowerAlphaNumDash c = true := by decide
      exact hall ch hch
    · intro x hx
      have hm : (toLowerAscii "machine".data).head? = some 'm' := rfl
      rw [hm, Option.some.injEq] at hx
      subst hx
      decide
    · intro x hx
      have hm : (toLowerAscii "machine".data).getLast? = some 'e' := rfl
      rw [hm, Option.some.injEq] at hx
      subst hx
      decide
  · rw [hs, if_neg hemp]
    refine ⟨?_, ?_, toLowerAscii_noDouble _ ht_nd, ?_, ?_⟩
    · rw [toLowerAscii]
      simp only [ne_eq, List.map_eq_nil_iff]
      exact hemp
    · intro ch hch
      rw [toLowerAscii] at hch
      simp only [List.mem_map] at hch
      obtain ⟨a, ha, rfl⟩ := hch
      exact lowerChar_class a (ht_class a ha)
    · intro x hx
      rw [toLowerAscii, List.head?_map] at hx
      cases hy : (trimHyphensDots (collapseHyphens (replaceInvalid
          ((splitDots s).headD [])))).head? with
      | none => rw [hy] at hx; simp at hx
      | some y =>
        rw [hy] at hx
        simp only [Option.map_some', Option.some.injEq] at hx
        subst hx
        have hyt := trimHyphensDots_head _ y hy
        intro hc
        have hyd : y = '-' := (lowerChar_dash_iff y).mp hc
        rw [hyd] at hyt
        exact absurd hyt (by decide)
    · intro x hx
      rw [toLowerAscii, List.getLast?_map] at hx
      cases hy : (trimHyphensDots (collapseHyphens (replaceInvalid
          ((splitDots s).headD [])))).getLast? with
      | none => rw [hy] at hx; simp at hx
      | some y =>
        rw [hy] at hx
        simp only [Option.map_some', Option.some.injEq] at hx
        subst hx
        have hyt := trimHyphensDots_last _ y hy
        intro hc
        have hyd : y = '-' := (lowerChar_dash_iff y).mp hc
        rw [hyd] at hyt
        exact absurd hyt (by decide)

/-- The sanitizer fixes every well-formed owner name. -/
theorem sanitizeDNSName_fixed (r : Str) (h : SanitizedWF r) : sanitizeDNSName r = r := by
  obtain ⟨hne, hclass, hnd, hhead, hlast⟩ := h
  have hnodot : '.' ∉ r := by
    intro hm
    have hcd := hclass '.' hm
    have hfd : isLowerAlphaNumDash '.' = false := by decide
    rw [hfd] at hcd
    exact Bool.false_ne_true hcd
  have hno_trim : ∀ x ∈ r, x ≠ '-' → isTrimChar x = false := by
    intro x hx hxd
    have hcx := hclass x hx
    have hxdot : x ≠ '.' := by
      intro hd
      subst hd
      have hfd : isLowerAlphaNumDash '.' = false := by decide
      rw [hfd] at hcx
      exact Bool.false_ne_true hcx
    simp [isTrimChar, hxd, hxdot]
  have h1 : (splitDots r).headD [] = r := by rw [splitDots_no_dot r hnodot]; rfl
  have h2 : replaceInvalid r = r := by
    rw [replaceInvalid]
    have hfix : ∀ ch ∈ r, (if isAlphaNumDotDash ch then ch else '-') = ch := by
      intro ch hch
      rw [if_pos ?_]
      have hc := hclass ch hch
      simp only [isLowerAlphaNumDash, Bool.or_eq_true, Bool.and_eq_true,
        decide_eq_true_eq] at hc
      simp only [isAlphaNumDotDash, Bool.or_eq_true, Bool.and_eq_true, decide_eq_true_eq]
      rcases hc with (hc | hc) | hc
      · exact Or.inl (Or.inl (Or.inl (Or.inl hc)))
      · exact Or.inl (Or.inl (Or.inr hc))
      · exact Or.inr hc
    calc r.map _ = r.map id := List.map_congr_left hfix
      _ = r := List.map_id r
  have h3 : collapseHyphens r = r := collapseHyphens_of_noDouble r hnd
  have h4 : trimHyphensDots r = r := by
    rw [trimHyphensDots_eq]
    have hdw : r.dropWhile isTrimChar = r := by
      cases hr : r with
      | nil => rfl
      | cons x xs =>
        rw [List.dropWhile_cons, if_neg ?_]
        have hx : x ≠ '-' := hhead x (by rw [hr]; rfl)
        have hmem : x ∈ r := by rw [hr]; exact List.mem_cons_self _ _
        rw [hno_trim x hmem hx]
        simp
    rw [hdw, List.rdropWhile_eq_self_iff]
    intro hl
    have hlx : r.getLast? = some (r.getLast hl) := List.getLast?_eq_getLast _ hl
    have hx : r.getLast hl ≠ '-' := hlast _ hlx
    have hmem : r.getLast hl ∈ r := List.getLast_mem hl
    rw [hno_trim _ hmem hx]
    simp
  have h5 : toLowerAscii r = r := toLowerAscii_of_lower r hclass
  have hs : sanitizeDNSName r =
      toLowerAscii
        (if trimHyphensDots (collapseHyphens (replaceInvalid ((splitDots r).headD []))) = []
          then "machine".data
          else trimHyphensDots (collapseHyphens (replaceInvalid ((splitDots r).headD [])))) :=
    rfl
  rw [hs, h1, h2, h3, h4, if_neg hne, h5]

/-- C10: for every input string, the sanitized owner name is non-empty,
contains only lowercase letters, digits and hyphens, has no adjacent
hyphens, starts and ends with a non-hyphen, and sanitizing again changes
nothing (the sanitizer is idempotent). -/
theorem sanitizeDNSName_props (s : Str) :
    ((sanitizeDNSName s).isEmpty = false) ∧
    ((sanitizeDNSName s).all isLowerAlphaNumDash = true) ∧
    (noDoubleHyphen (sanitizeDNSName s) = true) ∧
    (noEdgeHyphen (sanitizeDNSName s) = true) ∧
    sanitizeDNSName (sanitizeDNSName s) = sanitizeDNSName s := by
  obtain ⟨hne, hclass, hnd, hhead, hlast⟩ := sanitizeDNSName_wf s
  refine ⟨?_, ?_, hnd, ?_, sanitizeDNSName_fixed _ (sanitizeDNSName_wf s)⟩
  · cases hr : sanitizeDNSName s with
    | nil => exact absurd hr hne
    | cons x xs => rfl
  · rw [List.all_eq_true]
    exact hclass
  · cases hr : sanitizeDNSName s with
    | nil => exact absurd hr hne
    | cons x xs =>
      have hx : x ≠ '-' := hhead x (by rw [hr]; rfl)
      have hl : ∀ y, (x :: xs).getLast? = some y → y ≠ '-' := by
        intro y hy
        exact hlast y (by rw [hr]; exact hy)
      have hlany : (x :: xs).getLast (by simp) ≠ '-' :=
        hl _ (List.getLast?_eq_getLast _ (by simp))
      rw [noEdgeHyphen]
      have hh : ((x :: xs).headD 'a' == '-') = false := by
        simp only [List.headD_cons, beq_eq_false_iff_ne, ne_eq]
        exact hx
      have hg : ((x :: xs).getLastD 'a' == '-') = false := by
        rw [List.getLastD_eq_getLast?, List.getLast?_eq_getLast _ (by simp)]
        simp only [Option.getD_some, beq_eq_false_iff_ne, ne_eq]
        exact hlany
      rw [hh, hg]
      rfl
